import Mathlib

/-!
Verification of the hellajay server: a shallow embedding of the admin
Basic-Auth gate, the track-mutation route handlers, the audio-upload
pipeline, the public track listing, the contact endpoint, and the two
rate-limiter configurations, together with theorems settling the
specification claims about them.

Strings from the JavaScript source are modelled as Lean `String`s viewed
through their character lists; JS `Buffer` byte comparisons are modelled
on those character lists (credentials are treated at code-point level).
Environment variables are `Option String`, with JS truthiness made
explicit (`undefined` and the empty string are falsy).
-/

/-- JS `undefined`-coalescing: an absent environment variable reads as `''`
for truthiness purposes. -/
def envStr (v : Option String) : String := v.getD ""

/-- JS string truthiness: a string is truthy iff it is non-empty. -/
def truthy (s : String) : Bool := s != ""

/-- Model of JS `String.prototype.split` with a single-character separator:
`splitOnChar sep cs` returns the (always non-empty) list of separator-free
chunks of `cs`. -/
def splitOnChar (sep : Char) : List Char → List (List Char)
  | [] => [[]]
  | c :: rest =>
    match splitOnChar sep rest with
    | [] => [[]]
    | s :: ss => if c = sep then [] :: s :: ss else (c :: s) :: ss

theorem splitOnChar_ne_nil (sep : Char) (l : List Char) :
    splitOnChar sep l ≠ [] := by
  cases l with
  | nil => simp [splitOnChar]
  | cons c rest =>
    simp only [splitOnChar]
    cases splitOnChar sep rest with
    | nil => simp
    | cons s ss =>
      by_cases h : c = sep <;> simp [h]

theorem splitOnChar_exists_cons (sep : Char) (l : List Char) :
    ∃ s ss, splitOnChar sep l = s :: ss := by
  cases h : splitOnChar sep l with
  | nil => exact absurd h (splitOnChar_ne_nil sep l)
  | cons s ss => exact ⟨s, ss, rfl⟩

/-- A chunk produced by `splitOnChar` never contains the separator. -/
theorem splitOnChar_mem_not_sep (sep : Char) (l : List Char) :
    ∀ x ∈ splitOnChar sep l, sep ∉ x := by
  induction l with
  | nil => intro x hx; simp [splitOnChar] at hx; simp [hx]
  | cons c rest ih =>
    intro x hx
    obtain ⟨s, ss, hsplit⟩ := splitOnChar_exists_cons sep rest
    have ihs : ∀ y ∈ s :: ss, sep ∉ y := fun y hy => ih y (hsplit ▸ hy)
    simp only [splitOnChar, hsplit] at hx
    by_cases hc : c = sep
    · simp only [if_pos hc, List.mem_cons] at hx
      rcases hx with hx | hx | hx
      · simp [hx]
      · exact hx ▸ ihs s (by simp)
      · exact ihs x (by simp [hx])
    · simp only [if_neg hc, List.mem_cons] at hx
      rcases hx with hx | hx
      · subst hx
        intro hmem
        rcases List.mem_cons.mp hmem with h | h
        · exact hc h.symm
        · exact ihs s (by simp) h
      · exact ihs x (by simp [hx])

theorem splitOnChar_cons_sep (sep : Char) (l : List Char) :
    splitOnChar sep (sep :: l) = [] :: splitOnChar sep l := by
  obtain ⟨s, ss, hsplit⟩ := splitOnChar_exists_cons sep l
  simp [splitOnChar, hsplit]

/-- Splitting a concatenation at an explicit separator occurrence splits the
two sides independently. -/
theorem splitOnChar_append_sep (sep : Char) (xs ys : List Char) :
    splitOnChar sep (xs ++ sep :: ys) =
      splitOnChar sep xs ++ splitOnChar sep ys := by
  induction xs with
  | nil =>
    simp only [List.nil_append]
    rw [splitOnChar_cons_sep]
    simp [splitOnChar]
  | cons x xs ih =>
    obtain ⟨s, ss, hxs⟩ := splitOnChar_exists_cons sep xs
    obtain ⟨t, ts, hys⟩ := splitOnChar_exists_cons sep ys
    by_cases hx : x = sep
    · subst hx
      rw [List.cons_append, splitOnChar_cons_sep, splitOnChar_cons_sep, ih]
      simp
    · simp [List.cons_append, splitOnChar, ih, hxs, hys, hx]

/-- Splitting a separator-free list yields that single chunk. -/
theorem splitOnChar_no_sep (sep : Char) (l : List Char) (h : sep ∉ l) :
    splitOnChar sep l = [l] := by
  induction l with
  | nil => simp [splitOnChar]
  | cons c rest ih =>
    have hc : c ≠ sep := fun hc => h (by simp [hc])
    have hrest : sep ∉ rest := fun hr => h (by simp [hr])
    simp [splitOnChar, ih hrest, hc]

/-- Model of JS `String.prototype.startsWith`. -/
def strStartsWith (s pre : String) : Bool :=
  s.toList.take pre.toList.length == pre.toList

theorem strStartsWith_append (pre rest : String)
    (h : rest.toList = pre.toList ++ (rest.toList.drop pre.toList.length)) :
    strStartsWith rest pre = true := by
  simp only [strStartsWith, beq_iff_eq]
  conv_lhs => rw [h]
  exact List.take_left _ _

theorem strStartsWith_self (s : String) : strStartsWith s s = true := by
  simp [strStartsWith]

/-- Model of JS `String.prototype.includes`: substring occurrence test. -/
def listHasInfix (sub : List Char) : List Char → Bool
  | [] => sub == []
  | c :: rest => ((c :: rest).take sub.length == sub) || listHasInfix sub rest

def strIncludes (s sub : String) : Bool := listHasInfix sub.toList s.toList

theorem listHasInfix_self (l : List Char) : listHasInfix l l = true := by
  cases l with
  | nil => simp [listHasInfix]
  | cons c rest => simp [listHasInfix]

theorem listHasInfix_of_mem (c : Char) (l : List Char) (h : c ∈ l) :
    listHasInfix [c] l = true := by
  induction l with
  | nil => simp at h
  | cons x rest ih =>
    rcases List.mem_cons.mp h with h | h
    · subst h; simp [listHasInfix]
    · simp [listHasInfix, ih h]

theorem mem_of_listHasInfix_singleton (c : Char) (l : List Char)
    (h : listHasInfix [c] l = true) : c ∈ l := by
  induction l with
  | nil => simp [listHasInfix] at h
  | cons x rest ih =>
    simp only [listHasInfix] at h
    rcases Bool.or_eq_true _ _ |>.mp h with h | h
    · have h' : (x :: rest).take 1 = [c] := by simpa using h
      have hxc : x = c := by simpa using h'
      simp [hxc]
    · exact List.mem_cons_of_mem _ (ih h)

/-! ## Admin Basic-Auth gate (src/routes/admin.js, `basicAuth`) -/

/-- The UTF-8 encoding of one scalar value, as `Buffer.from` produces it. -/
def utf8Bytes (c : Char) : List Nat :=
  let n := c.toNat
  if n < 128 then [n]
  else if n < 2048 then [192 + n / 64, 128 + n % 64]
  else if n < 65536 then
    [224 + n / 4096, 128 + (n / 64) % 64, 128 + n % 64]
  else
    [240 + n / 262144, 128 + (n / 4096) % 64, 128 + (n / 64) % 64,
      128 + n % 64]

/-- JS `String.prototype.length`: UTF-16 code units — characters above
U+FFFF count twice. -/
def utf16Len (s : String) : Nat :=
  (s.toList.map (fun c => if c.toNat < 65536 then 1 else 2)).sum

/-- `Buffer.from(s)`: the UTF-8 byte sequence of the string. -/
def utf8Str (s : String) : List Nat :=
  (s.toList.map utf8Bytes).flatten

/-- `Buffer.alloc(n, 0)` followed by `Buffer.from(s).copy(target)`: the
UTF-8 bytes truncated to the target size, zero-padded up to it. Because
`n` is computed from UTF-16 code-unit lengths, a non-ASCII string's bytes
are silently truncated here. -/
def toBuffer (s : String) (n : Nat) : List Nat :=
  ((utf8Str s).take n) ++
    List.replicate (n - ((utf8Str s).take n).length) 0

/-- Model of the gate's credential comparison: both candidate and expected
buffers are sized by the longer UTF-16 length, filled with the (possibly
truncated) UTF-8 bytes, compared byte-wise (`crypto.timingSafeEqual`),
and the UTF-16 lengths are compared separately; a match requires both. -/
def bufferMatch (input expected : String) : Bool :=
  let m := max (utf16Len input) (utf16Len expected)
  (toBuffer input m == toBuffer expected m) &&
    (utf16Len input == utf16Len expected)

theorem string_toList_inj (a b : String) (h : a.toList = b.toList) : a = b := by
  cases a; cases b; exact congrArg String.mk h

/-- A string whose characters are all ASCII: for these, UTF-16 length,
UTF-8 length and character count coincide and no truncation occurs. -/
def isAsciiStr (s : String) : Bool :=
  s.toList.all (fun c => c.toNat < 128)

theorem char_toNat_inj (c d : Char) (h : c.toNat = d.toNat) : c = d := by
  apply Char.eq_of_val_eq
  apply UInt32.ext
  exact h

theorem utf16Len_ascii_list (l : List Char) (h : ∀ c ∈ l, c.toNat < 128) :
    (l.map (fun c => if c.toNat < 65536 then 1 else 2)).sum = l.length := by
  induction l with
  | nil => rfl
  | cons c rest ih =>
    have hc : c.toNat < 65536 := by
      have := h c (by simp)
      omega
    simp only [List.map_cons, List.sum_cons, if_pos hc,
      ih (fun x hx => h x (by simp [hx])), List.length_cons]
    omega

theorem utf8Str_ascii_list (l : List Char) (h : ∀ c ∈ l, c.toNat < 128) :
    (l.map utf8Bytes).flatten = l.map Char.toNat := by
  induction l with
  | nil => rfl
  | cons c rest ih =>
    have hc : c.toNat < 128 := h c (by simp)
    simp only [List.map_cons, List.flatten_cons,
      ih (fun x hx => h x (by simp [hx]))]
    simp [utf8Bytes, hc]

theorem map_toNat_inj (a b : List Char)
    (h : a.map Char.toNat = b.map Char.toNat) : a = b := by
  induction a generalizing b with
  | nil =>
    cases b with
    | nil => rfl
    | cons y ys => simp at h
  | cons x xs ih =>
    cases b with
    | nil => simp at h
    | cons y ys =>
      simp only [List.map_cons, List.cons.injEq] at h
      rw [char_toNat_inj x y h.1, ih ys h.2]

theorem isAsciiStr_mem (s : String) (h : isAsciiStr s = true) :
    ∀ c ∈ s.toList, c.toNat < 128 := by
  simpa [isAsciiStr, List.all_eq_true] using h

/-- Equal credentials always pass the comparison. -/
theorem bufferMatch_refl (a : String) : bufferMatch a a = true := by
  simp [bufferMatch]

/-- On ASCII strings no truncation happens and the comparison accepts
exactly equal strings. (This fails for non-ASCII strings: the buffers
are sized in UTF-16 code units but filled with UTF-8 bytes, so unequal
strings can compare equal after truncation.) -/
theorem bufferMatch_ascii_iff (a b : String)
    (ha : isAsciiStr a = true) (hb : isAsciiStr b = true) :
    bufferMatch a b = true ↔ a = b := by
  have ha' := isAsciiStr_mem a ha
  have hb' := isAsciiStr_mem b hb
  have h16a : utf16Len a = a.toList.length := utf16Len_ascii_list _ ha'
  have h16b : utf16Len b = b.toList.length := utf16Len_ascii_list _ hb'
  have h8a : utf8Str a = a.toList.map Char.toNat := utf8Str_ascii_list _ ha'
  have h8b : utf8Str b = b.toList.map Char.toNat := utf8Str_ascii_list _ hb'
  constructor
  · intro h
    simp only [bufferMatch, Bool.and_eq_true, beq_iff_eq] at h
    obtain ⟨hbuf, hlen⟩ := h
    have hlen' : a.toList.length = b.toList.length := by
      rw [← h16a, ← h16b]; exact hlen
    have hm : max (utf16Len a) (utf16Len b) = utf16Len a := by
      rw [hlen]; exact Nat.max_self _
    rw [hm] at hbuf
    have hta : toBuffer a (utf16Len a) = a.toList.map Char.toNat := by
      simp only [toBuffer, h8a, h16a]
      rw [← List.length_map a.toList Char.toNat, List.take_length]
      simp
    have htb : toBuffer b (utf16Len a) = b.toList.map Char.toNat := by
      simp only [toBuffer, h8b, h16a, hlen']
      rw [← List.length_map b.toList Char.toNat, List.take_length]
      simp
    rw [hta, htb] at hbuf
    exact string_toList_inj a b (map_toNat_inj _ _ hbuf)
  · intro h
    subst h
    exact bufferMatch_refl a

/-- The outcome of a middleware invocation: pass control to the next handler,
or answer with a status code, an optional `WWW-Authenticate: Basic`
challenge header, and a body. -/
inductive AuthOutcome where
  | next
  | respond (status : Nat) (wwwAuth : Bool) (body : String)
deriving DecidableEq, Repr

/-- `process.env.ADMIN_USER || 'admin'`. -/
def configuredUser (adminUserEnv : Option String) : String :=
  if truthy (envStr adminUserEnv) then envStr adminUserEnv else "admin"

/-- `authHeader.split(' ')[1]`: the base64 payload is the second
space-separated token of the header (or `''` when absent). -/
def basicPayload (h : String) : String :=
  match splitOnChar ' ' h.toList with
  | _ :: x :: _ => ⟨x⟩
  | _ => ""

/-- `const [user, pass] = credentials.split(':')`, then `user || ''`:
the username candidate is the part before the first colon. -/
def credUser (credentials : String) : String :=
  match splitOnChar ':' credentials.toList with
  | u :: _ => ⟨u⟩
  | _ => ""

/-- `const [user, pass] = credentials.split(':')`, then `pass || ''`:
the password candidate is the second chunk of the colon-split — the
segment between the first and second colon — or `''` when there is no
colon at all. -/
def credPass (credentials : String) : String :=
  match splitOnChar ':' credentials.toList with
  | _ :: p :: _ => ⟨p⟩
  | _ => ""

/-- The Basic-Auth middleware. `adminUserEnv`/`adminPassEnv` are the
`ADMIN_USER`/`ADMIN_PASS` environment variables; `decodeBase64` stands for
the library primitive `Buffer.from(x, 'base64').toString('utf8')`;
`authHeader` is the request's `Authorization` header. Returns the outcome
together with the list of `console.error` log lines emitted. -/
def basicAuth (adminUserEnv adminPassEnv : Option String)
    (decodeBase64 : String → String) (authHeader : Option String) :
    AuthOutcome × List String :=
  let adminUser := configuredUser adminUserEnv
  let adminPass := envStr adminPassEnv
  if !(truthy adminPass) then
    (.respond 500 false "Server configuration error",
      ["ADMIN_PASS environment variable not set"])
  else
    match authHeader with
    | none => (.respond 401 true "Authentication required", [])
    | some h =>
      if !(truthy h) || !(strStartsWith h "Basic ") then
        (.respond 401 true "Authentication required", [])
      else
        let credentials := decodeBase64 (basicPayload h)
        let userInput := credUser credentials
        let passInput := credPass credentials
        if bufferMatch userInput adminUser && bufferMatch passInput adminPass then
          (.next, [])
        else
          (.respond 401 true "Invalid credentials", [])

/-- With the password configured and a well-formed `Basic` header, the gate
reduces to the padded credential comparison. -/
theorem basicAuth_reduce (userEnv : Option String) (p : String) (hp : p ≠ "")
    (decode : String → String) (h : String)
    (hsw : strStartsWith h "Basic " = true) :
    basicAuth userEnv (some p) decode (some h) =
      if bufferMatch (credUser (decode (basicPayload h))) (configuredUser userEnv) &&
          bufferMatch (credPass (decode (basicPayload h))) p then
        (.next, [])
      else (.respond 401 true "Invalid credentials", []) := by
  have hh : h ≠ "" := by
    intro he
    subst he
    exact absurd hsw (by decide)
  simp [basicAuth, truthy, envStr, hp, hh, hsw]

/-- C1 counterexample: the gate admits a wrong password. With configured
password "é" (UTF-8 `C3 A9`, UTF-16 length 1) the candidate "è" (UTF-8
`C3 A8`) is accepted: both byte buffers are truncated to the single
code-unit length, leaving `C3` on each side, and the UTF-16 lengths agree. -/
theorem basicAuth_nonascii_false_accept :
    (("è" : String) ≠ "é")
    ∧ (basicAuth (some "admin") (some "é") (fun _ => "admin:è")
        (some "Basic x")).1 = AuthOutcome.next := by
  exact ⟨by decide, by decide⟩

/-- C1 (amended): with the admin password configured, a missing or
non-`Basic` Authorization header gets a 401 with a `WWW-Authenticate:
Basic` challenge; equal decoded credentials are always admitted; and when
the configured username and password and the decoded candidates are all
ASCII, the gate admits exactly the equal pairs, answering every other
pair with 401 "Invalid credentials". (For non-ASCII credentials the
comparison truncates UTF-8 bytes to the UTF-16 length, so unequal pairs
can be admitted.) -/
theorem basicAuth_admits_iff_correct_credentials_ascii
    (userEnv : Option String) (p : String) (hp : p ≠ "")
    (decode : String → String) (h : String) :
    basicAuth userEnv (some p) decode none =
        (.respond 401 true "Authentication required", [])
    ∧ (strStartsWith h "Basic " = false →
        basicAuth userEnv (some p) decode (some h) =
          (.respond 401 true "Authentication required", []))
    ∧ (strStartsWith h "Basic " = true →
        ((credUser (decode (basicPayload h)) = configuredUser userEnv ∧
            credPass (decode (basicPayload h)) = p) →
          (basicAuth userEnv (some p) decode (some h)).1 = .next)
        ∧ (isAsciiStr (configuredUser userEnv) = true →
           isAsciiStr p = true →
           isAsciiStr (credUser (decode (basicPayload h))) = true →
           isAsciiStr (credPass (decode (basicPayload h))) = true →
           (((basicAuth userEnv (some p) decode (some h)).1 = .next) ↔
             (credUser (decode (basicPayload h)) = configuredUser userEnv ∧
              credPass (decode (basicPayload h)) = p))
           ∧ (¬(credUser (decode (basicPayload h)) = configuredUser userEnv ∧
                 credPass (decode (basicPayload h)) = p) →
               basicAuth userEnv (some p) decode (some h) =
                 (.respond 401 true "Invalid credentials", [])))) := by
  refine ⟨?_, ?_, ?_⟩
  · simp [basicAuth, truthy, envStr, hp]
  · intro hsw
    simp [basicAuth, truthy, envStr, hp, hsw]
  · intro hsw
    rw [basicAuth_reduce userEnv p hp decode h hsw]
    constructor
    · rintro ⟨h1, h2⟩
      have hc : (bufferMatch (credUser (decode (basicPayload h)))
          (configuredUser userEnv) &&
          bufferMatch (credPass (decode (basicPayload h))) p) = true := by
        rw [h1, h2, bufferMatch_refl, bufferMatch_refl]
        rfl
      rw [if_pos hc]
    · intro hau hap hcu hcp
      constructor
      · constructor
        · intro hnext
          by_cases hc : (bufferMatch (credUser (decode (basicPayload h)))
              (configuredUser userEnv) &&
              bufferMatch (credPass (decode (basicPayload h))) p) = true
          · obtain ⟨h1, h2⟩ := Bool.and_eq_true _ _ |>.mp hc
            exact ⟨(bufferMatch_ascii_iff _ _ hcu hau).mp h1,
              (bufferMatch_ascii_iff _ _ hcp hap).mp h2⟩
          · rw [if_neg hc] at hnext
            simp at hnext
        · rintro ⟨h1, h2⟩
          have hc : (bufferMatch (credUser (decode (basicPayload h)))
              (configuredUser userEnv) &&
              bufferMatch (credPass (decode (basicPayload h))) p) = true := by
            rw [h1, h2, bufferMatch_refl, bufferMatch_refl]
            rfl
          rw [if_pos hc]
      · intro hne
        have hc : ¬((bufferMatch (credUser (decode (basicPayload h)))
            (configuredUser userEnv) &&
            bufferMatch (credPass (decode (basicPayload h))) p) = true) := by
          intro hcc
          obtain ⟨h1, h2⟩ := Bool.and_eq_true _ _ |>.mp hcc
          exact hne ⟨(bufferMatch_ascii_iff _ _ hcu hau).mp h1,
            (bufferMatch_ascii_iff _ _ hcp hap).mp h2⟩
        rw [if_neg hc]

/-- Witness for C1: correct ASCII credentials are admitted, at a concrete
input. -/
theorem basicAuth_admits_iff_correct_credentials_ascii_witness :
    ("pw" ≠ "")
    ∧ (basicAuth (some "admin") (some "pw") (fun _ => "admin:pw")
        (some "Basic YWRtaW46cHc=")).1 = AuthOutcome.next := by
  refine ⟨by decide, ?_⟩
  exact ((basicAuth_admits_iff_correct_credentials_ascii (some "admin") "pw"
    (by decide) (fun _ => "admin:pw") "Basic YWRtaW46cHc=").2.2
    (by decide)).1 ⟨by decide, by decide⟩

/-- C7: when the `ADMIN_PASS` environment variable is absent, every admin
request receives HTTP 500 before any authentication step, whatever the
Authorization header, and the condition is logged. -/
theorem basicAuth_missing_password_500 (userEnv : Option String)
    (decode : String → String) (header : Option String) :
    basicAuth userEnv none decode header =
      (.respond 500 false "Server configuration error",
        ["ADMIN_PASS environment variable not set"]) := by
  simp [basicAuth, truthy, envStr]

/-- The password candidate extracted from the colon-split can never contain
a colon. -/
theorem credPass_no_colon (credentials : String) :
    ':' ∉ (credPass credentials).toList := by
  unfold credPass
  cases hs : splitOnChar ':' credentials.toList with
  | nil => exact absurd hs (splitOnChar_ne_nil _ _)
  | cons u rest =>
    cases rest with
    | nil =>
      show ':' ∉ ("" : String).toList
      decide
    | cons pp rest2 =>
      have hmem : pp ∈ splitOnChar ':' credentials.toList := by
        rw [hs]; simp
      exact splitOnChar_mem_not_sep ':' credentials.toList pp hmem

/-- The byte `0x3A` occurs in a UTF-8 stream only as the encoding of the
colon itself: every byte of a multi-byte sequence is at least `0x80`. -/
theorem colon_of_byte58_mem (l : List Char)
    (h : (58 : Nat) ∈ (l.map utf8Bytes).flatten) : ':' ∈ l := by
  induction l with
  | nil => simp at h
  | cons c rest ih =>
    simp only [List.map_cons, List.flatten_cons, List.mem_append] at h
    rcases h with h | h
    · have hc : c = ':' := by
        by_cases h1 : c.toNat < 128
        · simp [utf8Bytes, h1] at h
          exact char_toNat_inj c ':' (by rw [← h]; rfl)
        · exfalso
          by_cases h2 : c.toNat < 2048
          · simp [utf8Bytes, h1, h2] at h
            rcases h with h | h <;> omega
          · by_cases h3 : c.toNat < 65536
            · simp [utf8Bytes, h1, h2, h3] at h
              rcases h with h | h | h <;> omega
            · simp [utf8Bytes, h1, h2, h3] at h
              rcases h with h | h | h | h <;> omega
      simp [hc]
    · simp [ih h]

/-- An ASCII password containing a colon can never pass the comparison
against the colon-free extracted candidate: the colon byte would have to
appear, untruncated, in the candidate's UTF-8 bytes. -/
theorem bufferMatch_credPass_ascii_colon (p cred : String)
    (hascii : isAsciiStr p = true) (hp : ':' ∈ p.toList) :
    bufferMatch (credPass cred) p = false := by
  cases hb : bufferMatch (credPass cred) p with
  | false => rfl
  | true =>
    exfalso
    have hp' := isAsciiStr_mem p hascii
    have h16 : utf16Len p = p.toList.length := utf16Len_ascii_list _ hp'
    have h8 : utf8Str p = p.toList.map Char.toNat := utf8Str_ascii_list _ hp'
    simp only [bufferMatch, Bool.and_eq_true, beq_iff_eq] at hb
    obtain ⟨hbuf, hlen⟩ := hb
    have hm : max (utf16Len (credPass cred)) (utf16Len p) = utf16Len p := by
      rw [hlen]; exact Nat.max_self _
    rw [hm] at hbuf
    have htp : toBuffer p (utf16Len p) = p.toList.map Char.toNat := by
      simp only [toBuffer, h8, h16]
      rw [← List.length_map p.toList Char.toNat, List.take_length]
      simp
    have h58p : (58 : Nat) ∈ toBuffer p (utf16Len p) := by
      rw [htp]
      exact List.mem_map_of_mem Char.toNat hp
    rw [← hbuf] at h58p
    have h58c : (58 : Nat) ∈ utf8Str (credPass cred) := by
      simp only [toBuffer, List.mem_append] at h58p
      rcases h58p with h | h
      · exact List.take_subset _ _ h
      · have := List.eq_of_mem_replicate h
        omega
    exact credPass_no_colon cred (colon_of_byte58_mem _ h58c)

/-- C9 counterexample: a colon in a non-ASCII password does not lock the
gate. With configured password `"é:"` (UTF-8 `C3 A9 3A`, UTF-16 length 2)
the candidate credentials `admin:éX` are admitted: the extracted password
`"éX"` (UTF-8 `C3 A9 58`) and the configured one both truncate to
`C3 A9` in the two-code-unit buffers, and the UTF-16 lengths agree. -/
theorem basicAuth_colon_password_bypass :
    (':' ∈ ("é:" : String).toList)
    ∧ (basicAuth (some "admin") (some "é:") (fun _ => "admin:éX")
        (some "Basic x")).1 = AuthOutcome.next := by
  exact ⟨by decide, by decide⟩

/-- C9 (amended): if the configured admin password is ASCII and contains a
colon, the gate responds 401 to every possible request and never admits:
the decoded credential string is split on the colon, so the candidate
password shown to the comparison can never contain one, while the
untruncated ASCII buffer of the configured password always does. (For a
non-ASCII password the UTF-8/UTF-16 truncation can cut the colon byte
away and admit a candidate.) -/
theorem basicAuth_ascii_colon_password_locked_out (p : String)
    (hascii : isAsciiStr p = true) (hp : ':' ∈ p.toList)
    (userEnv : Option String) (decode : String → String)
    (header : Option String) :
    ∃ w b, (basicAuth userEnv (some p) decode header).1 =
      AuthOutcome.respond 401 w b := by
  have hpne : p ≠ "" := by
    intro he
    subst he
    exact absurd hp (by decide)
  cases header with
  | none =>
    refine ⟨true, "Authentication required", ?_⟩
    simp [basicAuth, truthy, envStr, hpne]
  | some h =>
    by_cases hsw : strStartsWith h "Basic " = true
    · rw [basicAuth_reduce userEnv p hpne decode h hsw]
      have hpm := bufferMatch_credPass_ascii_colon p
        (decode (basicPayload h)) hascii hp
      refine ⟨true, "Invalid credentials", ?_⟩
      rw [if_neg (by simp [hpm])]
    · refine ⟨true, "Authentication required", ?_⟩
      have hsw' : strStartsWith h "Basic " = false := by
        cases hv : strStartsWith h "Basic " with
        | false => rfl
        | true => exact absurd hv hsw
      simp [basicAuth, truthy, envStr, hpne, hsw']

/-- Witness for C9: an ASCII password containing a colon locks the gate at
a concrete header. -/
theorem basicAuth_ascii_colon_password_locked_out_witness :
    isAsciiStr "a:b" = true
    ∧ (':' ∈ ("a:b" : String).toList)
    ∧ ∃ w b, (basicAuth none (some "a:b") (fun x => x)
        (some "Basic a:b")).1 = AuthOutcome.respond 401 w b := by
  refine ⟨by decide, by decide, ?_⟩
  exact basicAuth_ascii_colon_password_locked_out "a:b" (by decide)
    (by decide) none (fun x => x) (some "Basic a:b")

/-! ## Track registry and mutation handlers (src/routes/admin.js) -/

/-- A track registry entry: `{filename, title}`. -/
structure TrackRecord where
  filename : String
  title : String
deriving DecidableEq, Repr

/-- `tracks.json`: the ordered sequence of track records. -/
structure TracksDocument where
  tracks : List TrackRecord
deriving DecidableEq, Repr

/-- Filesystem operations a handler performs, in order. -/
inductive FsEvent where
  | readTracks
  | writeTracks
  | existsCheck (p : String)
  | unlink (p : String)
  | reload
deriving DecidableEq, Repr

/-- A handler run: the redirect issued, the resulting persisted tracks
document, and the filesystem operations performed, in order. -/
structure OpOutcome where
  redirect : String
  doc : TracksDocument
  events : List FsEvent
deriving DecidableEq, Repr

/-- Model of JS `Array.prototype.findIndex` (with `-1` as `none`). -/
def findIndex (p : TrackRecord → Bool) : List TrackRecord → Option Nat
  | [] => none
  | t :: ts => if p t then some 0 else (findIndex p ts).map (· + 1)

/-- Model of JS `Array.prototype.find`. -/
def findTrack (p : TrackRecord → Bool) : List TrackRecord → Option TrackRecord
  | [] => none
  | t :: ts => if p t then some t else findTrack p ts

/-- One normalization step of POSIX path resolution: drop empty and `.`
segments, pop on `..`, append anything else. -/
def normSegsStep (acc : List (List Char)) (s : List Char) : List (List Char) :=
  if s = [] ∨ s = ['.'] then acc
  else if s = ['.', '.'] then acc.dropLast
  else acc ++ [s]

def normSegs (segs : List (List Char)) : List (List Char) :=
  segs.foldl normSegsStep []

/-- Join a list of path segments with `'/'`. -/
def joinSegs : List (List Char) → List Char
  | [] => []
  | [s] => s
  | s :: rest => s ++ '/' :: joinSegs rest

/-- Model of Node `path.join(dir, f)` for an absolute `dir` on POSIX:
concatenate with a slash and normalize. -/
def pathJoinAbs (dir f : String) : String :=
  ⟨'/' :: joinSegs (normSegs (splitOnChar '/' (dir.toList ++ '/' :: f.toList)))⟩

/-- The shared path-traversal character check of the three mutation
handlers: `filename.includes('/') || filename.includes('\\') ||
filename.includes('..')`. -/
def badFilenameChars (filename : String) : Bool :=
  strIncludes filename "/" || strIncludes filename "\\" ||
    strIncludes filename ".."

/-- `POST /admin/work/delete`. `fsHas` is the state of the work directory
(`fs.existsSync`). -/
def deleteTrack (workDir : String) (fsHas : String → Bool)
    (doc : TracksDocument) (filename : String) : OpOutcome :=
  if filename == "" || badFilenameChars filename then
    ⟨"/admin/work?error=Invalid filename", doc, []⟩
  else
    let filepath := pathJoinAbs workDir filename
    if !(strStartsWith filepath workDir) then
      ⟨"/admin/work?error=Invalid path", doc, []⟩
    else
      match findIndex (fun t => t.filename == filename) doc.tracks with
      | none => ⟨"/admin/work?error=Track not found in database", doc,
          [.readTracks]⟩
      | some index =>
        let newDoc : TracksDocument := ⟨doc.tracks.eraseIdx index⟩
        if fsHas filepath then
          ⟨"/admin/work?message=Track deleted successfully", newDoc,
            [.readTracks, .writeTracks, .existsCheck filepath,
              .unlink filepath, .reload]⟩
        else
          ⟨"/admin/work?message=Track deleted successfully", newDoc,
            [.readTracks, .writeTracks, .existsCheck filepath, .reload]⟩

/-- `track.title = title.trim()` on the first record matching the filename
(JS `find` returns a reference into the array). -/
def setTitleFirst (tracks : List TrackRecord) (filename newTitle : String) :
    List TrackRecord :=
  match tracks with
  | [] => []
  | t :: ts =>
    if t.filename == filename then { t with title := newTitle } :: ts
    else t :: setTitleFirst ts filename newTitle

/-- `POST /admin/work/update`. -/
def updateTrack (doc : TracksDocument) (filename title : String) : OpOutcome :=
  if filename == "" || title == "" then
    ⟨"/admin/work?error=Missing filename or title", doc, []⟩
  else if badFilenameChars filename then
    ⟨"/admin/work?error=Invalid filename", doc, []⟩
  else
    match findTrack (fun t => t.filename == filename) doc.tracks with
    | none => ⟨"/admin/work?error=Track not found", doc, [.readTracks]⟩
    | some _ =>
      ⟨"/admin/work?message=Title updated successfully",
        ⟨setTitleFirst doc.tracks filename title.trim⟩,
        [.readTracks, .writeTracks, .reload]⟩

/-- The three-line swap `temp = a[i]; a[i] = a[j]; a[j] = temp`. -/
def listSwap {α : Type} (l : List α) (i j : Nat) : List α :=
  match l[i]?, l[j]? with
  | some a, some b => (l.set i b).set j a
  | _, _ => l

/-- `POST /admin/work/reorder`. -/
def reorderTrack (doc : TracksDocument) (filename direction : String) :
    OpOutcome :=
  if filename == "" || direction == "" then
    ⟨"/admin/work?error=Missing parameters", doc, []⟩
  else if badFilenameChars filename then
    ⟨"/admin/work?error=Invalid filename", doc, []⟩
  else
    match findIndex (fun t => t.filename == filename) doc.tracks with
    | none => ⟨"/admin/work?error=Track not found", doc, [.readTracks]⟩
    | some index =>
      if direction == "up" && decide (index > 0) then
        ⟨"/admin/work?message=Track reordered",
          ⟨listSwap doc.tracks index (index - 1)⟩,
          [.readTracks, .writeTracks, .reload]⟩
      else if direction == "down" &&
          decide (index < doc.tracks.length - 1) then
        ⟨"/admin/work?message=Track reordered",
          ⟨listSwap doc.tracks index (index + 1)⟩,
          [.readTracks, .writeTracks, .reload]⟩
      else
        ⟨"/admin/work", doc, [.readTracks]⟩

/-- A well-formed path segment: non-empty, not `.` or `..`, slash-free. -/
def cleanSeg (s : List Char) : Prop :=
  s ≠ [] ∧ s ≠ ['.'] ∧ s ≠ ['.', '.'] ∧ '/' ∉ s

/-- `workDir` is an already-normalized absolute directory made of the
segments `segs` (as `WORK_DIR = path.join(__dirname, '..', 'public',
'work')` always is). -/
def normalAbsDir (workDir : String) (segs : List (List Char)) : Prop :=
  workDir.toList = '/' :: joinSegs segs ∧ segs ≠ [] ∧ ∀ s ∈ segs, cleanSeg s

theorem normSegs_foldl_clean (segs : List (List Char)) (acc : List (List Char))
    (h : ∀ s ∈ segs, s ≠ [] ∧ s ≠ ['.'] ∧ s ≠ ['.', '.']) :
    segs.foldl normSegsStep acc = acc ++ segs := by
  induction segs generalizing acc with
  | nil => simp
  | cons s rest ih =>
    obtain ⟨h1, h2, h3⟩ := h s (by simp)
    have hstep : normSegsStep acc s = acc ++ [s] := by
      simp [normSegsStep, h1, h2, h3]
    simp only [List.foldl_cons, hstep]
    rw [ih _ (fun x hx => h x (by simp [hx]))]
    simp

theorem joinSegs_append_single (segs : List (List Char)) (x : List Char)
    (h : segs ≠ []) : joinSegs (segs ++ [x]) = joinSegs segs ++ '/' :: x := by
  induction segs with
  | nil => exact absurd rfl h
  | cons s rest ih =>
    cases rest with
    | nil => simp [joinSegs]
    | cons r rs =>
      have h1 : joinSegs ((s :: r :: rs) ++ [x]) =
          s ++ '/' :: joinSegs ((r :: rs) ++ [x]) := by
        simp [joinSegs]
      have h2 : joinSegs (s :: r :: rs) = s ++ '/' :: joinSegs (r :: rs) := by
        simp [joinSegs]
      rw [h1, ih (by simp), h2]
      simp

theorem splitOnChar_joinSegs (segs : List (List Char)) (hne : segs ≠ [])
    (h : ∀ s ∈ segs, '/' ∉ s) :
    splitOnChar '/' (joinSegs segs) = segs := by
  induction segs with
  | nil => exact absurd rfl hne
  | cons s rest ih =>
    cases rest with
    | nil => simpa [joinSegs] using splitOnChar_no_sep '/' s (h s (by simp))
    | cons r rs =>
      have hjoin : joinSegs (s :: r :: rs) = s ++ '/' :: joinSegs (r :: rs) := by
        simp [joinSegs]
      rw [hjoin, splitOnChar_append_sep,
        splitOnChar_no_sep '/' s (h s (by simp)),
        ih (by simp) (fun x hx => h x (by simp [hx]))]
      rfl

theorem strIncludes_slash_eq_false (f : String)
    (h : strIncludes f "/" = false) : '/' ∉ f.toList := by
  intro hmem
  have := listHasInfix_of_mem '/' f.toList hmem
  have he : ("/" : String).toList = ['/'] := by decide
  rw [strIncludes, he, this] at h
  simp at h

theorem strIncludes_dotdot_eq_false (f : String)
    (h : strIncludes f ".." = false) : f.toList ≠ ['.', '.'] := by
  intro heq
  have he : (".." : String).toList = ['.', '.'] := by decide
  rw [strIncludes, he, heq] at h
  rw [listHasInfix_self] at h
  simp at h

/-- With a normalized absolute work directory, joining any filename that
passed the character check resolves inside the work directory. -/
theorem pathJoinAbs_clean (workDir : String) (segs : List (List Char))
    (hw : normalAbsDir workDir segs) (f : String)
    (hs : '/' ∉ f.toList) (hdd : f.toList ≠ ['.', '.']) :
    strStartsWith (pathJoinAbs workDir f) workDir = true := by
  obtain ⟨hwl, hne, hclean⟩ := hw
  have hsplit : splitOnChar '/' (workDir.toList ++ '/' :: f.toList) =
      [] :: (segs ++ [f.toList]) := by
    rw [splitOnChar_append_sep, hwl, splitOnChar_cons_sep,
      splitOnChar_joinSegs segs hne (fun s hsm => (hclean s hsm).2.2.2),
      splitOnChar_no_sep '/' f.toList hs]
    rfl
  have hnorm : normSegs (splitOnChar '/' (workDir.toList ++ '/' :: f.toList)) =
      normSegsStep segs f.toList := by
    rw [hsplit]
    show ([] :: (segs ++ [f.toList])).foldl normSegsStep [] = _
    rw [List.foldl_cons]
    have hstep0 : normSegsStep [] [] = [] := by simp [normSegsStep]
    rw [hstep0, List.foldl_append,
      normSegs_foldl_clean segs []
        (fun s hsm => ⟨(hclean s hsm).1, (hclean s hsm).2.1, (hclean s hsm).2.2.1⟩)]
    simp
  by_cases hde : f.toList = [] ∨ f.toList = ['.']
  · have hde' : f.data = [] ∨ f.data = ['.'] := hde
    have : pathJoinAbs workDir f = workDir := by
      apply string_toList_inj
      show ('/' :: joinSegs (normSegs (splitOnChar '/'
        (workDir.toList ++ '/' :: f.toList)))) = workDir.toList
      rw [hnorm, hwl]
      simp [normSegsStep, hde']
    rw [this]
    exact strStartsWith_self workDir
  · have hde' : ¬(f.data = [] ∨ f.data = ['.']) := hde
    have hdd' : f.data ≠ ['.', '.'] := hdd
    have hstep : normSegsStep segs f.toList = segs ++ [f.toList] := by
      simp [normSegsStep, hde', hdd']
    have htl : (pathJoinAbs workDir f).toList =
        workDir.toList ++ '/' :: f.toList := by
      show ('/' :: joinSegs (normSegs (splitOnChar '/'
        (workDir.toList ++ '/' :: f.toList)))) = _
      rw [hnorm, hstep, joinSegs_append_single segs f.toList hne, hwl]
      rfl
    apply strStartsWith_append
    rw [htl, List.drop_left]

/-- A handler outcome that is a user-visible rejection leaving the registry
untouched, with no filesystem access at all. -/
def isRejection (o : OpOutcome) (doc : TracksDocument) : Prop :=
  strStartsWith o.redirect "/admin/work?error=" = true ∧ o.doc = doc ∧
    o.events = []


theorem isRejection_mk (msg : String) (doc : TracksDocument)
    (h : strStartsWith msg "/admin/work?error=" = true) :
    isRejection ⟨msg, doc, []⟩ doc := ⟨h, rfl, rfl⟩

theorem badFilenameChars_parts (f : String) (h : badFilenameChars f = false) :
    strIncludes f "/" = false ∧ strIncludes f "\\" = false ∧
      strIncludes f ".." = false := by
  simp only [badFilenameChars, Bool.or_eq_false_iff] at h
  exact ⟨h.1.1, h.1.2, h.2⟩

/-- C2: each of the three track-mutation handlers rejects — before any
filesystem access, leaving the registry unchanged — every filename that
contains `/`, `\`, or `..`, and likewise every filename whose join with
the work directory would resolve outside it. -/
theorem track_mutations_reject_traversal (workDir : String)
    (segs : List (List Char)) (hw : normalAbsDir workDir segs)
    (fsHas : String → Bool) (doc : TracksDocument)
    (f title direction : String)
    (hbad : badFilenameChars f = true ∨
      strStartsWith (pathJoinAbs workDir f) workDir = false) :
    isRejection (deleteTrack workDir fsHas doc f) doc
    ∧ isRejection (updateTrack doc f title) doc
    ∧ isRejection (reorderTrack doc f direction) doc := by
  have hb : badFilenameChars f = true := by
    rcases hbad with hb | hp
    · exact hb
    · cases hv : badFilenameChars f with
      | true => rfl
      | false =>
        exfalso
        obtain ⟨h1, _, h3⟩ := badFilenameChars_parts f hv
        have htrue := pathJoinAbs_clean workDir segs hw f
          (strIncludes_slash_eq_false f h1) (strIncludes_dotdot_eq_false f h3)
        rw [hp] at htrue
        exact Bool.noConfusion htrue
  refine ⟨?_, ?_, ?_⟩
  · have : deleteTrack workDir fsHas doc f =
        ⟨"/admin/work?error=Invalid filename", doc, []⟩ := by
      simp [deleteTrack, hb]
    rw [this]
    exact isRejection_mk _ _ (by decide)
  · by_cases h0 : (f == "" || title == "") = true
    · have : updateTrack doc f title =
          ⟨"/admin/work?error=Missing filename or title", doc, []⟩ := by
        simp only [updateTrack, if_pos h0]
      rw [this]
      exact isRejection_mk _ _ (by decide)
    · have : updateTrack doc f title =
          ⟨"/admin/work?error=Invalid filename", doc, []⟩ := by
        simp only [updateTrack, if_neg h0, if_pos hb]
      rw [this]
      exact isRejection_mk _ _ (by decide)
  · by_cases h0 : (f == "" || direction == "") = true
    · have : reorderTrack doc f direction =
          ⟨"/admin/work?error=Missing parameters", doc, []⟩ := by
        simp only [reorderTrack, if_pos h0]
      rw [this]
      exact isRejection_mk _ _ (by decide)
    · have : reorderTrack doc f direction =
          ⟨"/admin/work?error=Invalid filename", doc, []⟩ := by
        simp only [reorderTrack, if_neg h0, if_pos hb]
      rw [this]
      exact isRejection_mk _ _ (by decide)

/-- Witness for C2: a traversal filename is rejected by delete at a
concrete work directory and registry. -/
theorem track_mutations_reject_traversal_witness :
    normalAbsDir "/srv/work" [['s', 'r', 'v'], ['w', 'o', 'r', 'k']]
    ∧ badFilenameChars "../etc" = true
    ∧ isRejection (deleteTrack "/srv/work" (fun _ => false)
        ⟨[]⟩ "../etc") ⟨[]⟩ := by
  refine ⟨?_, by decide, ?_⟩
  · refine ⟨by decide, by decide, ?_⟩
    intro s hs
    fin_cases hs <;> exact ⟨by decide, by decide, by decide, by decide⟩
  · exact (track_mutations_reject_traversal "/srv/work"
      [['s', 'r', 'v'], ['w', 'o', 'r', 'k']]
      ⟨by decide, by decide, by intro s hs; fin_cases hs <;>
        exact ⟨by decide, by decide, by decide, by decide⟩⟩
      (fun _ => false) ⟨[]⟩ "../etc" "t" "up" (Or.inl (by decide))).1

/-- C3: for a delete request that passes validation — if no record carries
the filename, the handler reports a user-visible error and the document is
unchanged; if one does, the record is removed and the document saved
before any file removal, the file removal is attempted only when the file
exists, and a file missing on disk still yields the success redirect. -/
theorem deleteTrack_registry_first (workDir : String)
    (segs : List (List Char)) (hw : normalAbsDir workDir segs)
    (fsHas : String → Bool) (doc : TracksDocument) (f : String)
    (hne : f ≠ "") (hok : badFilenameChars f = false) :
    (findIndex (fun t => t.filename == f) doc.tracks = none →
      deleteTrack workDir fsHas doc f =
        ⟨"/admin/work?error=Track not found in database", doc, [.readTracks]⟩)
    ∧ (∀ i, findIndex (fun t => t.filename == f) doc.tracks = some i →
        (fsHas (pathJoinAbs workDir f) = true →
          deleteTrack workDir fsHas doc f =
            ⟨"/admin/work?message=Track deleted successfully",
              ⟨doc.tracks.eraseIdx i⟩,
              [.readTracks, .writeTracks, .existsCheck (pathJoinAbs workDir f),
                .unlink (pathJoinAbs workDir f), .reload]⟩)
        ∧ (fsHas (pathJoinAbs workDir f) = false →
          deleteTrack workDir fsHas doc f =
            ⟨"/admin/work?message=Track deleted successfully",
              ⟨doc.tracks.eraseIdx i⟩,
              [.readTracks, .writeTracks, .existsCheck (pathJoinAbs workDir f),
                .reload]⟩)) := by
  obtain ⟨h1, _, h3⟩ := badFilenameChars_parts f hok
  have hsw := pathJoinAbs_clean workDir segs hw f
    (strIncludes_slash_eq_false f h1) (strIncludes_dotdot_eq_false f h3)
  have hfb : (f == "") = false := by simp [hne]
  refine ⟨?_, ?_⟩
  · intro hfind
    simp [deleteTrack, hfb, hok, hsw, hfind]
  · intro i hfind
    constructor <;> intro hfs <;>
      simp [deleteTrack, hfb, hok, hsw, hfind, hfs]

/-- Witness for C3: deleting a registered track whose file is absent on
disk removes the record and reports success. -/
theorem deleteTrack_registry_first_witness :
    normalAbsDir "/srv/work" [['s', 'r', 'v'], ['w', 'o', 'r', 'k']]
    ∧ ("a.mp3" : String) ≠ ""
    ∧ badFilenameChars "a.mp3" = false
    ∧ findIndex (fun t => t.filename == "a.mp3")
        [TrackRecord.mk "a.mp3" "a"] = some 0
    ∧ deleteTrack "/srv/work" (fun _ => false)
        ⟨[TrackRecord.mk "a.mp3" "a"]⟩ "a.mp3" =
      ⟨"/admin/work?message=Track deleted successfully", ⟨[]⟩,
        [.readTracks, .writeTracks,
          .existsCheck (pathJoinAbs "/srv/work" "a.mp3"), .reload]⟩ := by
  refine ⟨⟨by decide, by decide, ?_⟩, by decide, by decide, by decide, ?_⟩
  · intro s hs
    fin_cases hs <;> exact ⟨by decide, by decide, by decide, by decide⟩
  · exact ((deleteTrack_registry_first "/srv/work"
      [['s', 'r', 'v'], ['w', 'o', 'r', 'k']]
      ⟨by decide, by decide, by intro s hs; fin_cases hs <;>
        exact ⟨by decide, by decide, by decide, by decide⟩⟩
      (fun _ => false) ⟨[TrackRecord.mk "a.mp3" "a"]⟩ "a.mp3"
      (by decide) (by decide)).2 0 (by decide)).2 rfl

theorem get_set_self {α : Type} (l : List α) (i : Nat) (a : α)
    (h : i < l.length) : (l.set i a)[i]? = some a := by
  induction l generalizing i with
  | nil => simp at h
  | cons x xs ih =>
    cases i with
    | zero => simp
    | succ n => simpa [List.set] using ih n (by simpa using h)

theorem get_set_ne {α : Type} (l : List α) (i j : Nat) (a : α) (h : i ≠ j) :
    (l.set i a)[j]? = l[j]? := by
  induction l generalizing i j with
  | nil => simp
  | cons x xs ih =>
    cases i with
    | zero =>
      cases j with
      | zero => exact absurd rfl h
      | succ m => simp [List.set]
    | succ n =>
      cases j with
      | zero => simp [List.set]
      | succ m =>
        simpa [List.set] using ih n m (fun he => h (by rw [he]))

theorem get_some_lt {α : Type} (l : List α) (i : Nat) (a : α)
    (h : l[i]? = some a) : i < l.length := by
  induction l generalizing i with
  | nil => simp at h
  | cons x xs ih =>
    cases i with
    | zero => simp
    | succ n => simpa using ih n (by simpa using h)

theorem get_exists_of_lt {α : Type} (l : List α) (i : Nat)
    (h : i < l.length) : ∃ a, l[i]? = some a := by
  induction l generalizing i with
  | nil => simp at h
  | cons x xs ih =>
    cases i with
    | zero => exact ⟨x, by simp⟩
    | succ n => simpa using ih n (by simpa using h)

theorem listSwap_get_snd {α : Type} (l : List α) (i j : Nat) (a b : α)
    (hi : l[i]? = some a) (hj : l[j]? = some b) :
    (listSwap l i j)[j]? = some a := by
  simp only [listSwap, hi, hj]
  exact get_set_self _ j a
    (by rw [List.length_set]; exact get_some_lt l j b hj)

theorem listSwap_get_fst {α : Type} (l : List α) (i j : Nat) (a b : α)
    (hij : i ≠ j) (hi : l[i]? = some a) (hj : l[j]? = some b) :
    (listSwap l i j)[i]? = some b := by
  simp only [listSwap, hi, hj]
  rw [get_set_ne _ j i a (fun he => hij he.symm)]
  exact get_set_self _ i b (get_some_lt l i a hi)

theorem listSwap_get_other {α : Type} (l : List α) (i j k : Nat)
    (hki : k ≠ i) (hkj : k ≠ j) : (listSwap l i j)[k]? = l[k]? := by
  unfold listSwap
  cases hi : l[i]? with
  | none => rfl
  | some a =>
    cases hj : l[j]? with
    | none => rfl
    | some b =>
      show ((l.set i b).set j a)[k]? = l[k]?
      rw [get_set_ne _ j k a (fun he => hkj he.symm),
        get_set_ne _ i k b (fun he => hki he.symm)]

theorem listSwap_cons_succ {α : Type} (x : α) (l : List α) (i j : Nat) :
    listSwap (x :: l) (i + 1) (j + 1) = x :: listSwap l i j := by
  unfold listSwap
  simp only [List.getElem?_cons_succ]
  cases hi : l[i]? with
  | none => rfl
  | some a =>
    cases hj : l[j]? with
    | none => rfl
    | some b => simp [List.set]

theorem listSwap_succ_perm {α : Type} (l : List α) (i : Nat)
    (h : i + 1 < l.length) : (listSwap l i (i + 1)).Perm l := by
  induction i generalizing l with
  | zero =>
    match l, h with
    | a :: b :: t, _ =>
      have hswap : listSwap (a :: b :: t) 0 1 = b :: a :: t := by
        simp [listSwap, List.set]
      rw [hswap]
      exact List.Perm.swap a b t
  | succ n ih =>
    match l, h with
    | x :: l', h =>
      rw [listSwap_cons_succ]
      exact List.Perm.cons x (ih l' (by simpa using h))

theorem listSwap_comm {α : Type} (l : List α) (i j : Nat) (hij : i ≠ j) :
    listSwap l i j = listSwap l j i := by
  unfold listSwap
  cases hi : l[i]? with
  | none =>
    cases hj : l[j]? with
    | none => rfl
    | some b => rfl
  | some a =>
    cases hj : l[j]? with
    | none => rfl
    | some b =>
      show (l.set i b).set j a = (l.set j a).set i b
      exact List.set_comm b a l hij

theorem findIndex_lt_length (p : TrackRecord → Bool) (l : List TrackRecord)
    (i : Nat) (h : findIndex p l = some i) : i < l.length := by
  induction l generalizing i with
  | nil => exact absurd h (by simp [findIndex])
  | cons t ts ih =>
    cases hp : p t with
    | true =>
      rw [findIndex, if_pos hp] at h
      obtain rfl : (0 : Nat) = i := Option.some.inj h
      simp
    | false =>
      rw [findIndex, if_neg (by simp [hp])] at h
      cases hm : findIndex p ts with
      | none => rw [hm] at h; simp at h
      | some j =>
        rw [hm] at h
        simp at h
        obtain rfl : j + 1 = i := h
        have := ih j hm
        simp only [List.length_cons]
        omega

/-- C4: a reorder request naming the first track with direction `up`, or
the last with direction `down`, is a no-op: no save happens and the
document is returned unchanged with a success (non-error) redirect; a
non-boundary request swaps the named track with its immediate neighbour
in the requested direction and leaves every other position unchanged. -/
theorem reorderTrack_boundary_noop_and_swap (doc : TracksDocument)
    (f : String) (hne : f ≠ "") (hok : badFilenameChars f = false) :
    (findIndex (fun t => t.filename == f) doc.tracks = some 0 →
      reorderTrack doc f "up" = ⟨"/admin/work", doc, [.readTracks]⟩)
    ∧ (findIndex (fun t => t.filename == f) doc.tracks =
          some (doc.tracks.length - 1) →
        reorderTrack doc f "down" = ⟨"/admin/work", doc, [.readTracks]⟩)
    ∧ (∀ i, findIndex (fun t => t.filename == f) doc.tracks = some i →
        0 < i →
        (reorderTrack doc f "up").redirect =
            "/admin/work?message=Track reordered"
        ∧ (reorderTrack doc f "up").doc.tracks[i - 1]? = doc.tracks[i]?
        ∧ (reorderTrack doc f "up").doc.tracks[i]? = doc.tracks[i - 1]?
        ∧ ∀ k, k ≠ i → k ≠ i - 1 →
            (reorderTrack doc f "up").doc.tracks[k]? = doc.tracks[k]?)
    ∧ (∀ i, findIndex (fun t => t.filename == f) doc.tracks = some i →
        i < doc.tracks.length - 1 →
        (reorderTrack doc f "down").redirect =
            "/admin/work?message=Track reordered"
        ∧ (reorderTrack doc f "down").doc.tracks[i + 1]? = doc.tracks[i]?
        ∧ (reorderTrack doc f "down").doc.tracks[i]? = doc.tracks[i + 1]?
        ∧ ∀ k, k ≠ i → k ≠ i + 1 →
            (reorderTrack doc f "down").doc.tracks[k]? = doc.tracks[k]?) := by
  have hfb : (f == "") = false := by simp [hne]
  have hud : (("up" : String) == "down") = false := by decide
  have hdu : (("down" : String) == "up") = false := by decide
  have huu : (("up" : String) == "up") = true := by decide
  have hdd : (("down" : String) == "down") = true := by decide
  refine ⟨?_, ?_, ?_, ?_⟩
  · intro hfind
    simp [reorderTrack, hfb, hok, hfind, hud]
  · intro hfind
    simp [reorderTrack, hfb, hok, hfind, hdu, hdd, Nat.lt_irrefl]
  · intro i hfind h0
    have hlt := findIndex_lt_length _ _ _ hfind
    have hred : reorderTrack doc f "up" =
        ⟨"/admin/work?message=Track reordered",
          ⟨listSwap doc.tracks i (i - 1)⟩,
          [.readTracks, .writeTracks, .reload]⟩ := by
      simp [reorderTrack, hfb, hok, hfind, huu, h0]
    obtain ⟨a, ha⟩ := get_exists_of_lt doc.tracks i hlt
    obtain ⟨b, hb⟩ := get_exists_of_lt doc.tracks (i - 1) (by omega)
    rw [hred]
    refine ⟨rfl, ?_, ?_, ?_⟩
    · rw [listSwap_get_snd doc.tracks i (i - 1) a b ha hb, ha]
    · rw [listSwap_get_fst doc.tracks i (i - 1) a b (by omega) ha hb, hb]
    · intro k hki hki1
      exact listSwap_get_other doc.tracks i (i - 1) k hki hki1
  · intro i hfind hlast
    have hlt := findIndex_lt_length _ _ _ hfind
    have hred : reorderTrack doc f "down" =
        ⟨"/admin/work?message=Track reordered",
          ⟨listSwap doc.tracks i (i + 1)⟩,
          [.readTracks, .writeTracks, .reload]⟩ := by
      simp [reorderTrack, hfb, hok, hfind, hdu, hdd, hlast]
    obtain ⟨a, ha⟩ := get_exists_of_lt doc.tracks i hlt
    obtain ⟨b, hb⟩ := get_exists_of_lt doc.tracks (i + 1) (by omega)
    rw [hred]
    refine ⟨rfl, ?_, ?_, ?_⟩
    · rw [listSwap_get_snd doc.tracks i (i + 1) a b ha hb, ha]
    · rw [listSwap_get_fst doc.tracks i (i + 1) a b (by omega) ha hb, hb]
    · intro k hki hki1
      exact listSwap_get_other doc.tracks i (i + 1) k hki hki1

/-- Witness for C4: boundary no-op and a concrete swap on a two-track
registry. -/
theorem reorderTrack_boundary_noop_and_swap_witness :
    (("a.mp3" : String) ≠ "" ∧ badFilenameChars "a.mp3" = false
      ∧ reorderTrack ⟨[TrackRecord.mk "a.mp3" "a", TrackRecord.mk "b.mp3" "b"]⟩
          "a.mp3" "up" =
        ⟨"/admin/work", ⟨[TrackRecord.mk "a.mp3" "a",
          TrackRecord.mk "b.mp3" "b"]⟩, [.readTracks]⟩)
    ∧ (reorderTrack ⟨[TrackRecord.mk "a.mp3" "a", TrackRecord.mk "b.mp3" "b"]⟩
          "b.mp3" "up").doc.tracks[0]? =
        some (TrackRecord.mk "b.mp3" "b") := by
  constructor
  · refine ⟨by decide, by decide, ?_⟩
    exact (reorderTrack_boundary_noop_and_swap
      ⟨[TrackRecord.mk "a.mp3" "a", TrackRecord.mk "b.mp3" "b"]⟩
      "a.mp3" (by decide) (by decide)).1 (by decide)
  · have h := ((reorderTrack_boundary_noop_and_swap
      ⟨[TrackRecord.mk "a.mp3" "a", TrackRecord.mk "b.mp3" "b"]⟩
      "b.mp3" (by decide) (by decide)).2.2.1 1 (by decide) (by decide)).2.1
    rw [h]
    decide

theorem findTrack_none_iff_findIndex_none (p : TrackRecord → Bool)
    (l : List TrackRecord) :
    findTrack p l = none ↔ findIndex p l = none := by
  induction l with
  | nil => simp [findTrack, findIndex]
  | cons t ts ih =>
    cases hp : p t with
    | true => simp [findTrack, findIndex, hp]
    | false =>
      simp only [findTrack, findIndex, hp, Bool.false_eq_true, if_false]
      rw [ih]
      cases findIndex p ts <;> simp

theorem setTitleFirst_map_filename (l : List TrackRecord) (f v : String) :
    (setTitleFirst l f v).map TrackRecord.filename =
      l.map TrackRecord.filename := by
  induction l with
  | nil => rfl
  | cons t ts ih =>
    cases hp : (t.filename == f) with
    | true => simp [setTitleFirst, hp]
    | false => simp [setTitleFirst, hp, ih]

theorem setTitleFirst_get (l : List TrackRecord) (f v : String) (i : Nat)
    (h : findIndex (fun t => t.filename == f) l = some i) :
    (∀ k, k ≠ i → (setTitleFirst l f v)[k]? = l[k]?)
    ∧ ∃ t, l[i]? = some t ∧
        (setTitleFirst l f v)[i]? = some ⟨t.filename, v⟩ := by
  induction l generalizing i with
  | nil => exact absurd h (by simp [findIndex])
  | cons t ts ih =>
    cases hp : (t.filename == f) with
    | true =>
      rw [findIndex, if_pos hp] at h
      obtain rfl : (0 : Nat) = i := Option.some.inj h
      constructor
      · intro k hk
        cases k with
        | zero => exact absurd rfl hk
        | succ m => simp [setTitleFirst, hp]
      · refine ⟨t, by simp, ?_⟩
        simp [setTitleFirst, hp]
    | false =>
      rw [findIndex, if_neg (by simp [hp])] at h
      cases hm : findIndex (fun t => t.filename == f) ts with
      | none => rw [hm] at h; simp at h
      | some j =>
        rw [hm] at h
        simp at h
        obtain rfl : j + 1 = i := h
        obtain ⟨hother, t0, ht0, hset⟩ := ih j hm
        constructor
        · intro k hk
          cases k with
          | zero => simp [setTitleFirst, hp]
          | succ m =>
            have hmj : m ≠ j := fun he => hk (by rw [he])
            simp [setTitleFirst, hp, hother m hmj]
        · exact ⟨t0, by simpa using ht0, by simp [setTitleFirst, hp, hset]⟩

/-- C10: successful update and reorder preserve the registry's filenames —
update rewrites only the title of the first record matching the filename,
leaving the ordered filename list and every other record untouched, and
reorder permutes whole records without modifying any of them. -/
theorem update_reorder_preserve_filenames (doc : TracksDocument)
    (f title : String) (hne : f ≠ "") (htne : title ≠ "")
    (hok : badFilenameChars f = false) :
    (∀ i, findIndex (fun t => t.filename == f) doc.tracks = some i →
      (updateTrack doc f title).redirect =
          "/admin/work?message=Title updated successfully"
      ∧ (updateTrack doc f title).doc.tracks.map TrackRecord.filename =
          doc.tracks.map TrackRecord.filename
      ∧ (∀ k, k ≠ i →
          (updateTrack doc f title).doc.tracks[k]? = doc.tracks[k]?)
      ∧ ∃ t, doc.tracks[i]? = some t ∧
          (updateTrack doc f title).doc.tracks[i]? =
            some ⟨t.filename, title.trim⟩)
    ∧ (∀ i, findIndex (fun t => t.filename == f) doc.tracks = some i →
        0 < i → ((reorderTrack doc f "up").doc.tracks).Perm doc.tracks)
    ∧ (∀ i, findIndex (fun t => t.filename == f) doc.tracks = some i →
        i < doc.tracks.length - 1 →
        ((reorderTrack doc f "down").doc.tracks).Perm doc.tracks) := by
  have hfb : (f == "") = false := by simp [hne]
  have htb : (title == "") = false := by simp [htne]
  refine ⟨?_, ?_, ?_⟩
  · intro i hfind
    have hft : findTrack (fun t => t.filename == f) doc.tracks ≠ none := by
      intro hnone
      rw [findTrack_none_iff_findIndex_none, hfind] at hnone
      exact Option.noConfusion hnone
    cases hftv : findTrack (fun t => t.filename == f) doc.tracks with
    | none => exact absurd hftv hft
    | some t1 =>
      have hupd : updateTrack doc f title =
          ⟨"/admin/work?message=Title updated successfully",
            ⟨setTitleFirst doc.tracks f title.trim⟩,
            [.readTracks, .writeTracks, .reload]⟩ := by
        simp [updateTrack, hfb, htb, hok, hftv]
      obtain ⟨hother, t0, ht0, hset⟩ := setTitleFirst_get doc.tracks f
        title.trim i hfind
      rw [hupd]
      exact ⟨rfl, setTitleFirst_map_filename doc.tracks f title.trim,
        hother, t0, ht0, hset⟩
  · intro i hfind h0
    have hlt := findIndex_lt_length _ _ _ hfind
    have huu : (("up" : String) == "up") = true := by decide
    have hred : reorderTrack doc f "up" =
        ⟨"/admin/work?message=Track reordered",
          ⟨listSwap doc.tracks i (i - 1)⟩,
          [.readTracks, .writeTracks, .reload]⟩ := by
      simp [reorderTrack, hfb, hok, hfind, huu, h0]
    rw [hred]
    show (listSwap doc.tracks i (i - 1)).Perm doc.tracks
    obtain ⟨n, rfl⟩ : ∃ n, i = n + 1 := ⟨i - 1, by omega⟩
    rw [listSwap_comm doc.tracks (n + 1) (n + 1 - 1) (by omega)]
    have : n + 1 - 1 = n := by omega
    rw [this]
    exact listSwap_succ_perm doc.tracks n (by omega)
  · intro i hfind hlast
    have hdu : (("down" : String) == "up") = false := by decide
    have hdd : (("down" : String) == "down") = true := by decide
    have hred : reorderTrack doc f "down" =
        ⟨"/admin/work?message=Track reordered",
          ⟨listSwap doc.tracks i (i + 1)⟩,
          [.readTracks, .writeTracks, .reload]⟩ := by
      simp [reorderTrack, hfb, hok, hfind, hdu, hdd, hlast]
    rw [hred]
    show (listSwap doc.tracks i (i + 1)).Perm doc.tracks
    exact listSwap_succ_perm doc.tracks i (by omega)

/-- Witness for C10: a concrete successful update preserves the filename
list. -/
theorem update_reorder_preserve_filenames_witness :
    (("a.mp3" : String) ≠ "") ∧ (("New" : String) ≠ "")
    ∧ badFilenameChars "a.mp3" = false
    ∧ (updateTrack ⟨[TrackRecord.mk "a.mp3" "a", TrackRecord.mk "b.mp3" "b"]⟩
        "a.mp3" "New").doc.tracks.map TrackRecord.filename =
      ["a.mp3", "b.mp3"] := by
  refine ⟨by decide, by decide, by decide, ?_⟩
  have h := ((update_reorder_preserve_filenames
    ⟨[TrackRecord.mk "a.mp3" "a", TrackRecord.mk "b.mp3" "b"]⟩
    "a.mp3" "New" (by decide) (by decide) (by decide)).1 0 (by decide)).2.1
  rw [h]
  decide

/-! ## Audio upload and the public track list (src/routes/admin.js
`audioStorage` + `/work/upload`, src/server.js `getAudioFiles`) -/

/-- One character of the multer filename sanitizer:
`originalname.replace(/[^a-zA-Z0-9._-]/g, '_')`. -/
def sanitizeChar (c : Char) : Char :=
  if c.isAlphanum || c == '.' || c == '_' || c == '-' then c else '_'

def sanitizeFilename (s : String) : String :=
  ⟨s.toList.map sanitizeChar⟩

/-- Last index of `c` in the list, if any (rightmost occurrence). -/
def lastIdxOf (c : Char) (cs : List Char) : Option Nat :=
  match cs with
  | [] => none
  | x :: rest =>
    match lastIdxOf c rest with
    | some k => some (k + 1)
    | none => if x = c then some 0 else none

/-- Model of Node `path.extname` for slash-free names: the suffix starting
at the last dot, except that a name with no dot, a name whose only dot
leads it, and the name `".."` have no extension. -/
def extnameOf (f : String) : String :=
  match lastIdxOf '.' f.toList with
  | none => ""
  | some d =>
    if d = 0 then ""
    else if f.toList = ['.', '.'] then ""
    else ⟨f.toList.drop d⟩

/-- `path.basename(filename, path.extname(filename))` for slash-free
names: the name with its extension (when non-empty) stripped. -/
def titleOf (f : String) : String :=
  let e := extnameOf f
  if e = "" then f else ⟨f.toList.take (f.toList.length - e.toList.length)⟩

/-- `POST /admin/work/upload`: `file` is the multer upload's original name
(`none` when no file arrived). -/
def uploadAudio (doc : TracksDocument) (file : Option String) : OpOutcome :=
  match file with
  | none => ⟨"/admin/work?error=No file uploaded", doc, []⟩
  | some originalname =>
    let filename := sanitizeFilename originalname
    let title := titleOf filename
    ⟨"/admin/work?message=Track uploaded successfully",
      ⟨doc.tracks ++ [⟨filename, title⟩]⟩,
      [.readTracks, .writeTracks, .reload]⟩

/-- The characters JS `encodeURIComponent` leaves unescaped. -/
def isUnreservedURI (c : Char) : Bool :=
  c.isAlphanum || c == '-' || c == '_' || c == '.' || c == '!' || c == '~' ||
    c == '*' || c == Char.ofNat 39 || c == '(' || c == ')'

def hexDigit (n : Nat) : Char :=
  if n < 10 then Char.ofNat (48 + n) else Char.ofNat (55 + n)

def pctChar (c : Char) : List Char :=
  if isUnreservedURI c then [c]
  else ((utf8Bytes c).map
    (fun b => ['%', hexDigit (b / 16), hexDigit (b % 16)])).flatten

/-- Model of JS `encodeURIComponent`. -/
def encodeURIComponent (s : String) : String :=
  ⟨(s.toList.map pctChar).flatten⟩

/-- A public track-list entry `{url, title}`. -/
structure AudioFile where
  url : String
  title : String
deriving DecidableEq, Repr

/-- `getAudioFiles` (src/server.js): derive the public `{url, title}` list
from the tracks document, in document order. -/
def getAudioFiles (doc : TracksDocument) : List AudioFile :=
  doc.tracks.map
    (fun t => ⟨"/work/" ++ encodeURIComponent t.filename, t.title⟩)

theorem pctChar_sanitized (c : Char) :
    pctChar (sanitizeChar c) = [sanitizeChar c] := by
  cases hval : (c.isAlphanum || c == '.' || c == '_' || c == '-') with
  | true =>
    have hc : sanitizeChar c = c := by simp [sanitizeChar, hval]
    rw [hc]
    have hu : isUnreservedURI c = true := by
      simp only [isUnreservedURI]
      simp only [Bool.or_eq_true] at hval ⊢
      tauto
    simp [pctChar, hu]
  | false =>
    have hc : sanitizeChar c = '_' := by simp [sanitizeChar, hval]
    rw [hc]
    decide

theorem join_map_single (l : List Char)
    (h : ∀ c ∈ l, pctChar c = [c]) : (l.map pctChar).flatten = l := by
  induction l with
  | nil => rfl
  | cons c rest ih =>
    simp only [List.map_cons, List.flatten_cons, h c (by simp)]
    rw [ih (fun x hx => h x (by simp [hx]))]
    rfl

/-- `encodeURIComponent` is the identity on sanitized filenames. -/
theorem encode_sanitized (s : String) :
    encodeURIComponent (sanitizeFilename s) = sanitizeFilename s := by
  apply string_toList_inj
  show ((s.toList.map sanitizeChar).map pctChar).flatten = s.toList.map sanitizeChar
  apply join_map_single
  intro c hc
  obtain ⟨c0, _, rfl⟩ := List.mem_map.mp hc
  exact pctChar_sanitized c0

/-- C5: a successful audio upload stores the client name with every
character outside `[A-Za-z0-9._-]` replaced by `_`, appends the new
`{filename, title = filename without extension}` record at the end of the
document, and the public list derives a matching
`{url: /work/<filename>, title}` entry in document order; e.g.
"My Song.mp3" becomes filename "My_Song.mp3" with title "My_Song". -/
theorem uploadAudio_appends_sanitized (doc : TracksDocument) (orig : String) :
    uploadAudio doc (some orig) =
      ⟨"/admin/work?message=Track uploaded successfully",
        ⟨doc.tracks ++
          [⟨sanitizeFilename orig, titleOf (sanitizeFilename orig)⟩]⟩,
        [.readTracks, .writeTracks, .reload]⟩
    ∧ getAudioFiles (uploadAudio doc (some orig)).doc =
        getAudioFiles doc ++
          [⟨"/work/" ++ sanitizeFilename orig,
            titleOf (sanitizeFilename orig)⟩]
    ∧ encodeURIComponent (sanitizeFilename orig) = sanitizeFilename orig
    ∧ sanitizeFilename "My Song.mp3" = "My_Song.mp3"
    ∧ titleOf "My_Song.mp3" = "My_Song"
    ∧ getAudioFiles ⟨[⟨"My_Song.mp3", "My_Song"⟩]⟩ =
        [⟨"/work/My_Song.mp3", "My_Song"⟩] := by
  refine ⟨rfl, ?_, encode_sanitized orig, by decide, by decide, by decide⟩
  show getAudioFiles ⟨doc.tracks ++
      [⟨sanitizeFilename orig, titleOf (sanitizeFilename orig)⟩]⟩ = _
  simp only [getAudioFiles, List.map_append, List.map_cons, List.map_nil]
  rw [encode_sanitized]

/-! ## Contact endpoint and rate limiters (src/server.js) -/

/-- `express-rate-limit` configuration: fixed window (ms) and request
ceiling per client. -/
structure RateLimitConfig where
  windowMs : Nat
  maxReq : Nat
deriving DecidableEq, Repr

/-- `contactLimiter`: 15 minutes, 5 requests per window. -/
def contactLimiter : RateLimitConfig := ⟨15 * 60 * 1000, 5⟩

/-- `adminLimiter` (src/routes/admin.js): 1 minute, 100 requests. -/
def adminLimiter : RateLimitConfig := ⟨60 * 1000, 100⟩

/-- The fields of a `POST /api/contact` body; absent fields are `none`,
`services` normalizes to a list as the sanitizer does. -/
structure ContactRequest where
  email : Option String
  bandName : Option String
  numberOfSongs : Option String
  links : Option String
  services : List String
  message : Option String

def VALID_SERVICES : List String :=
  ["editing", "mixing", "mastering", "production", "midiDrums"]

/-- The express-validator chain, in declaration order; `emailOk` stands
for the library primitive `isEmail` (an absent email always fails it).
Returns the validation error messages in order. -/
def contactValidationErrors (emailOk : String → Bool) (r : ContactRequest) :
    List String :=
  (match r.email with
   | none => ["Valid email is required"]
   | some e =>
     (if !(emailOk e) then ["Valid email is required"] else []) ++
       (if 254 < e.length then ["Email too long"] else [])) ++
  (match r.message with
   | none => ["Message is required"]
   | some m =>
     (if m = "" then ["Message is required"] else []) ++
       (if 5000 < m.length then
         ["Message too long (max 5000 characters)"] else [])) ++
  (match r.bandName with
   | none => []
   | some b => if 200 < b.length then ["Band name too long"] else []) ++
  (match r.numberOfSongs with
   | none => []
   | some v => if 50 < v.length then ["Number of songs too long"] else []) ++
  (match r.links with
   | none => []
   | some v => if 1000 < v.length then ["Links too long"] else [])

/-- The observable outcome of a contact submission: HTTP status, the
`success` flag, the error or acknowledgement text, whether an email send
was attempted, and the log lines. -/
structure ContactOutcome where
  status : Nat
  success : Bool
  payload : String
  emailAttempted : Bool
  logs : List String
deriving DecidableEq, Repr

/-- `POST /api/contact`: validation, then fire-and-forget email relay.
`sendFails` stands for the outcome of the awaited `sendMail` call; its
failure is caught and only logged. -/
def contactHandler (emailOk : String → Bool)
    (gmailUser gmailPassword contactEmail : Option String)
    (sendFails : Bool) (r : ContactRequest) : ContactOutcome :=
  match contactValidationErrors emailOk r with
  | e :: _ => ⟨400, false, e, false, []⟩
  | [] =>
    let logs0 := ["Contact form submission"]
    if truthy (envStr gmailUser) && truthy (envStr gmailPassword) &&
        truthy (envStr contactEmail) then
      if sendFails then
        ⟨200, true, "Message received! Thank you for reaching out.", true,
          logs0 ++ ["Failed to send email"]⟩
      else
        ⟨200, true, "Message received! Thank you for reaching out.", true,
          logs0 ++ ["Email sent successfully"]⟩
    else
      ⟨200, true, "Message received! Thank you for reaching out.", false,
        logs0⟩

/-- C6: a contact request passing validation is answered 200/success
whatever the email delivery outcome (a send failure only adds a log
line), and absent mail credentials mean no send is attempted while the
response is still success; a request failing validation is answered
400 with `success:false` and the first validation error message, with no
email attempted. -/
theorem contactHandler_decoupled_from_delivery (emailOk : String → Bool)
    (gmailUser gmailPassword contactEmail : Option String)
    (sendFails : Bool) (r : ContactRequest) :
    (contactValidationErrors emailOk r = [] →
      (contactHandler emailOk gmailUser gmailPassword contactEmail
          sendFails r).status = 200
      ∧ (contactHandler emailOk gmailUser gmailPassword contactEmail
          sendFails r).success = true
      ∧ (contactHandler emailOk gmailUser gmailPassword contactEmail
          sendFails r).payload =
          "Message received! Thank you for reaching out."
      ∧ ((gmailUser = none ∨ gmailPassword = none ∨ contactEmail = none) →
          (contactHandler emailOk gmailUser gmailPassword contactEmail
            sendFails r).emailAttempted = false))
    ∧ (∀ e es, contactValidationErrors emailOk r = e :: es →
        contactHandler emailOk gmailUser gmailPassword contactEmail
          sendFails r = ⟨400, false, e, false, []⟩) := by
  constructor
  · intro hval
    have hred : ∀ sf, contactHandler emailOk gmailUser gmailPassword
        contactEmail sf r =
        (if truthy (envStr gmailUser) && truthy (envStr gmailPassword) &&
            truthy (envStr contactEmail) then
          if sf then
            ⟨200, true, "Message received! Thank you for reaching out.",
              true, ["Contact form submission", "Failed to send email"]⟩
          else
            ⟨200, true, "Message received! Thank you for reaching out.",
              true, ["Contact form submission", "Email sent successfully"]⟩
        else
          ⟨200, true, "Message received! Thank you for reaching out.",
            false, ["Contact form submission"]⟩) := by
      intro sf
      simp [contactHandler, hval]
    rw [hred sendFails]
    by_cases hc : (truthy (envStr gmailUser) && truthy (envStr gmailPassword)
        && truthy (envStr contactEmail)) = true
    · rw [if_pos hc]
      have hcm : ¬(gmailUser = none ∨ gmailPassword = none ∨
          contactEmail = none) := by
        intro habs
        simp only [Bool.and_eq_true] at hc
        obtain ⟨⟨hu, hp⟩, hce⟩ := hc
        rcases habs with h | h | h
        · rw [h] at hu; exact absurd hu (by decide)
        · rw [h] at hp; exact absurd hp (by decide)
        · rw [h] at hce; exact absurd hce (by decide)
      cases sendFails <;>
        exact ⟨rfl, rfl, rfl, fun habs => absurd habs hcm⟩
    · rw [if_neg hc]
      exact ⟨rfl, rfl, rfl, fun _ => rfl⟩
  · intro e es hval
    simp [contactHandler, hval]

/-- Witness for C6: a valid submission with absent mail credentials is
acknowledged with success and no send attempt; a missing message is a 400
with the first validation error. -/
theorem contactHandler_decoupled_from_delivery_witness :
    (contactValidationErrors (fun _ => true)
        ⟨some "a@b.c", none, none, none, [], some "hi"⟩ = []
      ∧ (contactHandler (fun _ => true) none none none false
          ⟨some "a@b.c", none, none, none, [], some "hi"⟩).status = 200
      ∧ (contactHandler (fun _ => true) none none none false
          ⟨some "a@b.c", none, none, none, [], some "hi"⟩).emailAttempted
          = false)
    ∧ (contactValidationErrors (fun _ => true)
        ⟨some "a@b.c", none, none, none, [], none⟩ =
          ["Message is required"]
      ∧ contactHandler (fun _ => true) none none none false
          ⟨some "a@b.c", none, none, none, [], none⟩ =
          ⟨400, false, "Message is required", false, []⟩) := by
  constructor
  · have h := (contactHandler_decoupled_from_delivery (fun _ => true)
      none none none false
      ⟨some "a@b.c", none, none, none, [], some "hi"⟩).1 (by decide)
    exact ⟨by decide, h.1, h.2.2.2 (Or.inl rfl)⟩
  · have h := (contactHandler_decoupled_from_delivery (fun _ => true)
      none none none false
      ⟨some "a@b.c", none, none, none, [], none⟩).2
      "Message is required" [] (by decide)
    exact ⟨by decide, h⟩

/-- C8 counterexample: the claim that the contact limiter's window is
narrower than the admin limiter's (alongside the lower ceiling) is false:
the contact window is 15 minutes against the admin limiter's 1 minute. -/
theorem contact_window_not_narrower :
    ¬(contactLimiter.windowMs < adminLimiter.windowMs ∧
      contactLimiter.maxReq < adminLimiter.maxReq) := by
  decide

/-- C8 (amended): the contact limiter has a strictly lower ceiling (5 vs
the admin default of 100 per minute) and a strictly wider — not narrower —
window (15 minutes vs 1 minute), so its permitted average request rate is
strictly lower. -/
theorem contact_limiter_stricter_amended :
    contactLimiter.maxReq < adminLimiter.maxReq
    ∧ adminLimiter.windowMs < contactLimiter.windowMs
    ∧ contactLimiter.maxReq * adminLimiter.windowMs <
        adminLimiter.maxReq * contactLimiter.windowMs
    ∧ adminLimiter.maxReq = 100 ∧ adminLimiter.windowMs = 60 * 1000 := by
  decide
